import Mathlib

/-!
# Shallow embedding of the keyframe-extraction engine

This file embeds the `SimpleVideoProcessor` logic of `video_processor.py`
(`ai-video-to-pdf`) in Lean 4 and proves the specification claims about it.

Modelling conventions:
* Python floats are modelled as `ℚ`; Python ints as `ℕ`/`ℤ`.
* A video is modelled as a function `ℕ → Option FrameData`: seeking to a frame
  index either fails to decode (`none`, the `if not ret: continue` path) or
  yields the frame together with the features the (external, not in-repo)
  feature extractors would compute for it.  The histogram correlation function
  `_hist_correlation` is likewise external to the repository sources, so the
  similarity comparator is an abstract parameter `corrF : ℕ → ℕ → ℚ` acting on
  abstract fingerprint identifiers.
* `cv2.imwrite` raising inside the replacement branch (the only write guarded
  by `try/except` in the source) is modelled by the per-frame flag
  `FrameData.writeFails`; all other writes are modelled as succeeding.
-/

set_option maxRecDepth 8000

/-- The character for decimal digit `d` (`'0'`–`'9'` when `d < 10`). -/
def digitChar (d : ℕ) : Char := Char.ofNat (48 + d)

/-- Little-endian decimal digits of `n`, with explicit fuel so that the
definition is structurally recursive (hence kernel-reducible).  With fuel
`≥ n` it agrees with `Nat.digits 10 n`. -/
def digitsRev : ℕ → ℕ → List ℕ
  | 0, _ => []
  | _ + 1, 0 => []
  | fuel + 1, n + 1 => (n + 1) % 10 :: digitsRev fuel ((n + 1) / 10)

/-- Decimal representation of `n` as a list of characters (like Python `"%d"`). -/
def natChars (n : ℕ) : List Char :=
  if n = 0 then ['0'] else ((digitsRev n n).reverse).map digitChar

/-- Decimal representation of `n` zero-padded to width 3, like Python `"%03d"`. -/
def pad3 (n : ℕ) : List Char :=
  List.replicate (3 - (natChars n).length) '0' ++ natChars n

/-- File name of the `n`-th content-aware slide: the output directory,
`/slide_`, the 3-digit-padded index, `.png` (source lines 129 and 149). -/
def slideName (dir : String) (n : ℕ) : String :=
  dir ++ "/slide_" ++ String.mk (pad3 n) ++ ".png"

/-- File name of the `n`-th fallback slide: the output directory,
`/slide_fb_`, the 3-digit-padded index, `.png` (source line 252). -/
def fbName (dir : String) (n : ℕ) : String :=
  dir ++ "/slide_fb_" ++ String.mk (pad3 n) ++ ".png"

/-- Python `round` (banker's rounding, halves to even), as used in
`int(round(self.capture_interval_seconds * fps))` (source line 86). -/
def pyRound (q : ℚ) : ℤ :=
  if q - ⌊q⌋ < 1/2 then ⌊q⌋
  else if (1 : ℚ)/2 < q - ⌊q⌋ then ⌊q⌋ + 1
  else if ⌊q⌋ % 2 = 0 then ⌊q⌋ else ⌊q⌋ + 1

/-- The constructor thresholds of `SimpleVideoProcessor.__init__`
(source lines 21–34), with the documented default values. -/
structure Config where
  capture_interval_seconds : ℚ := 5
  similarity_threshold : ℚ := 9/10
  replace_sharpness_factor : ℚ := 11/10
  replace_text_extra : ℕ := 10
  min_sharpness : ℚ := 50
deriving DecidableEq

/-- A scored sample, as in the spec's `ScoredFrame` data model (the fields the
quality comparator consumes, plus the timestamp). -/
structure ScoredFrame where
  timestamp_seconds : ℚ
  sharpness : ℚ
  edge_density : ℚ
  text_amount : ℕ
deriving DecidableEq

/-- Decoded frame at a sample position together with the features the external
extractors compute for it, plus whether an attempted replacement write
(`cv2.imwrite` inside the `try` of lines 167–184) would raise for this frame. -/
structure FrameData where
  sharpness : ℚ
  edge_density : ℚ
  text_amount : ℕ
  text_content : String
  hist : ℕ
  writeFails : Bool
deriving DecidableEq

/-- One persisted keyframe: the metadata dict appended to `captured`
(source lines 133–139). -/
structure KeyframeRecord where
  file : String
  time : ℚ
  sharpness : ℚ
  edge_density : ℚ
  text_amount : ℕ
deriving DecidableEq

/-- The `last_saved` info dict (`new_info` of source lines 117–125 together
with its `'file'` entry). -/
structure LastSaved where
  time : ℚ
  sharpness : ℚ
  edge_density : ℚ
  text_amount : ℕ
  text_content : String
  hist : ℕ
  file : String
deriving DecidableEq

/-- The selector's loop state: the `captured` list and the `last_saved`
incumbent (source lines 82–83). -/
structure SelState where
  captured : List KeyframeRecord
  last_saved : Option LastSaved
deriving DecidableEq

/-- Modelled from the spec: the repository body of
`SimpleVideoProcessor._is_new_better` is not under `src/` (the source file
only references it at lines 43–45 and calls it at line 166), so the quality
comparator follows §4.3 of the spec verbatim: the candidate strictly improves
on the incumbent when either
`candidate.sharpness > incumbent.sharpness * replace_sharpness_factor` or
`candidate.text_amount > incumbent.text_amount + replace_text_extra`.
It is a pure function (no side effects). -/
def is_improvement (candidate incumbent : ScoredFrame) (cfg : Config) : Bool :=
  decide (incumbent.sharpness * cfg.replace_sharpness_factor < candidate.sharpness) ||
  decide (incumbent.text_amount + cfg.replace_text_extra < candidate.text_amount)

/-- Replace the last element of a list by its image under `f`
(`captured[-1].update({...})` of source lines 172–178). -/
def updateLast (f : KeyframeRecord → KeyframeRecord) : List KeyframeRecord → List KeyframeRecord
  | [] => []
  | [r] => [f r]
  | r :: rest => r :: updateLast f rest

/-- The view of a `FrameData` sampled at time `t` as a `ScoredFrame`. -/
def FrameData.toScored (d : FrameData) (t : ℚ) : ScoredFrame :=
  ⟨t, d.sharpness, d.edge_density, d.text_amount⟩

/-- The view of the incumbent `last_saved` dict as a `ScoredFrame`. -/
def LastSaved.toScored (ls : LastSaved) : ScoredFrame :=
  ⟨ls.time, ls.sharpness, ls.edge_density, ls.text_amount⟩

/-- One iteration of the sampling loop of `extract_best_frames`
(source lines 89–186): decode, blur gate, then initial accept / distinct
accept / in-place replacement / rejection. -/
def processSample (cfg : Config) (corrF : ℕ → ℕ → ℚ) (output_dir : String) (fps : ℚ)
    (video : ℕ → Option FrameData) (s : SelState) (frame_idx : ℕ) : SelState :=
  match video frame_idx with
  | none => s
  | some d =>
    if d.sharpness < cfg.min_sharpness then s
    else
      let t : ℚ := (frame_idx : ℚ) / fps
      match s.last_saved with
      | none =>
        let filename := slideName output_dir (s.captured.length + 1)
        { captured := s.captured ++ [⟨filename, t, d.sharpness, d.edge_density, d.text_amount⟩],
          last_saved := some ⟨t, d.sharpness, d.edge_density, d.text_amount,
            d.text_content, d.hist, filename⟩ }
      | some ls =>
        if corrF d.hist ls.hist < cfg.similarity_threshold then
          let filename := slideName output_dir (s.captured.length + 1)
          { captured := s.captured ++ [⟨filename, t, d.sharpness, d.edge_density, d.text_amount⟩],
            last_saved := some ⟨t, d.sharpness, d.edge_density, d.text_amount,
              d.text_content, d.hist, filename⟩ }
        else
          if is_improvement (d.toScored t) ls.toScored cfg then
            if ls.file = "" then s
            else if d.writeFails then s
            else
              { captured := updateLast (fun r =>
                  { r with time := t, sharpness := d.sharpness,
                           edge_density := d.edge_density, text_amount := d.text_amount })
                  s.captured,
                last_saved := some ⟨t, d.sharpness, d.edge_density, d.text_amount,
                  d.text_content, d.hist, ls.file⟩ }
          else s

/-- `interval_frames = max(1, int(round(self.capture_interval_seconds * fps)))`
(source line 86). -/
def interval_frames (cfg : Config) (fps : ℚ) : ℕ :=
  (max 1 (pyRound (cfg.capture_interval_seconds * fps))).toNat

/-- The sampled frame indices `range(0, total_frames, interval_frames)`
(source line 89); for a positive step this is `⌈total/step⌉` indices. -/
def sampleIndices (total_frames step : ℕ) : List ℕ :=
  (List.range ((total_frames + step - 1) / step)).map (fun k => k * step)

/-- The state of the content-aware pass after the sampling loop
(source lines 82–186). -/
def contentState (cfg : Config) (corrF : ℕ → ℕ → ℚ) (output_dir : String) (fps : ℚ)
    (video : ℕ → Option FrameData) (total_frames : ℕ) : SelState :=
  List.foldl (processSample cfg corrF output_dir fps video) ⟨[], none⟩
    (sampleIndices total_frames (interval_frames cfg fps))

/-- `num_to_capture = min(20, max(1, total_frames // 100))` (source line 227). -/
def fbCount (total_frames : ℕ) : ℕ := min 20 (max 1 (total_frames / 100))

/-- The fallback sample positions
`int((i / max(1, num_to_capture)) * total_frames)` for `i < num_to_capture`
(source lines 230–232). -/
def fallbackPositions (total_frames : ℕ) : List ℕ :=
  (List.range (fbCount total_frames)).map (fun (i : ℕ) =>
    (⌊((i : ℚ) / ((max 1 (fbCount total_frames) : ℕ) : ℚ)) * (total_frames : ℚ)⌋).toNat)

/-- One iteration of the fallback loop (source lines 230–261): decode, blur
gate, unconditional persist. -/
def fbStep (cfg : Config) (output_dir : String) (fps : ℚ) (video : ℕ → Option FrameData)
    (acc : List KeyframeRecord) (frame_idx : ℕ) : List KeyframeRecord :=
  match video frame_idx with
  | none => acc
  | some d =>
    if d.sharpness < cfg.min_sharpness then acc
    else
      acc ++ [⟨fbName output_dir (acc.length + 1),
        (frame_idx : ℚ) / (if fps = 0 then 1 else fps),
        d.sharpness, d.edge_density, d.text_amount⟩]

/-- `_fallback_capture` (source lines 205–266). -/
def fallback_capture (cfg : Config) (output_dir : String) (total_frames : ℕ) (fps : ℚ)
    (video : ℕ → Option FrameData) : List KeyframeRecord :=
  List.foldl (fbStep cfg output_dir fps video) [] (fallbackPositions total_frames)

/-- The merge of fallback records into `captured`, skipping records whose file
name is already present (source lines 196–198). -/
def mergeFallback (content : List KeyframeRecord) (fallback : List KeyframeRecord) :
    List KeyframeRecord :=
  List.foldl (fun acc f =>
    if f.file ∈ acc.map (fun c => c.file) then acc else acc ++ [f]) content fallback

/-- `extract_best_frames` on an opened video (source lines 48–202): the
content-aware pass, followed — when it produced fewer than 3 records — by the
fallback pass merged without file-name duplicates. -/
def extract_best_frames (cfg : Config) (corrF : ℕ → ℕ → ℚ) (video : ℕ → Option FrameData)
    (total_frames : ℕ) (fps : ℚ) (output_name : String) : List KeyframeRecord :=
  let output_dir := output_name ++ "_slides"
  let captured := (contentState cfg corrF output_dir fps video total_frames).captured
  if captured.length < 3 then
    mergeFallback captured (fallback_capture cfg output_dir total_frames fps video)
  else captured

/-- `duration = (total_frames / fps) if fps else 0` (source line 70). -/
def videoDuration (total_frames : ℕ) (fps : ℚ) : ℚ :=
  if fps = 0 then 0 else (total_frames : ℚ) / fps

/-- Python `<=` on strings: lexicographic comparison of Unicode code points. -/
def charsLe : List Char → List Char → Bool
  | [], _ => true
  | _ :: _, [] => false
  | a :: as, b :: bs =>
    if a.toNat < b.toNat then true
    else if b.toNat < a.toNat then false
    else charsLe as bs

/-- Python `<=` on strings, on the underlying character lists. -/
def strLe (s t : String) : Bool := charsLe s.data t.data

/-- `files_sorted = sorted(files)` of `create_pdf` (source lines 279–286):
the storage references of the records, sorted lexicographically. -/
def create_pdf_files (records : List KeyframeRecord) : List String :=
  (records.map (fun d => d.file)).mergeSort strLe

/-- `create_pdf` (source lines 269–298): `None` on empty input, otherwise the
PDF path on a successful write and `None` on a write error (the external
`img2pdf`/file-system outcome is the parameter `write_ok`). -/
def create_pdf (records : List KeyframeRecord) (write_ok : Bool) (output_name : String) :
    Option String :=
  if records = [] then none
  else if write_ok then some (output_name ++ "_notes.pdf") else none

/-- The observable outcome of `process_video_to_pdf`: its return value, whether
PDF creation was attempted, and whether the downloaded video was removed. -/
structure PipelineOutcome where
  result : Option String
  pdf_attempted : Bool
  video_removed : Bool
deriving DecidableEq

/-- `extract_best_frames` including the `cap.isOpened()` gate (source lines
61–65): `none` when the video cannot be opened. -/
def extractResult (opened : Bool) (cfg : Config) (corrF : ℕ → ℕ → ℚ)
    (video : ℕ → Option FrameData) (total_frames : ℕ) (fps : ℚ) (output_name : String) :
    Option (List KeyframeRecord) :=
  if opened then some (extract_best_frames cfg corrF video total_frames fps output_name)
  else none

/-- `process_video_to_pdf` (source lines 301–338).  `download` is the result of
the external `download_video`; `video_exists` models `os.path.exists` at
cleanup time.  Python's single falsiness test `if not frames_info` treats the
`None` of a failed open and an empty list identically. -/
def process_video_to_pdf (download : Option String) (opened : Bool) (cfg : Config)
    (corrF : ℕ → ℕ → ℚ) (video : ℕ → Option FrameData) (total_frames : ℕ) (fps : ℚ)
    (pdf_write_ok : Bool) (video_exists : Bool) (content_name : String) : PipelineOutcome :=
  match download with
  | none => ⟨none, false, false⟩
  | some _ =>
    match extractResult opened cfg corrF video total_frames fps content_name with
    | none => ⟨none, false, false⟩
    | some frames =>
      if frames = [] then ⟨none, false, false⟩
      else ⟨create_pdf frames pdf_write_ok content_name, true, video_exists⟩

/-! ## Concrete fixtures used by witnesses and counterexamples -/

/-- A small witness configuration with integral thresholds:
interval 1 s, similarity threshold 1, sharpness factor 2, text extra 10,
minimum sharpness 50. -/
def cfgW : Config :=
  { capture_interval_seconds := 1, similarity_threshold := 1,
    replace_sharpness_factor := 2, replace_text_extra := 10, min_sharpness := 50 }

/-- A similarity comparator that always reports maximal similarity 1. -/
def corr1 : ℕ → ℕ → ℚ := fun _ _ => 1

/-- A similarity comparator that always reports similarity 0. -/
def corr0 : ℕ → ℕ → ℚ := fun _ _ => 0

/-- A sharp frame (sharpness 60) that is not an improvement over itself. -/
def dSharp : FrameData := ⟨60, 0, 0, "", 0, false⟩

/-- A much sharper frame (sharpness 200); replacement write succeeds. -/
def dBetter : FrameData := ⟨200, 0, 0, "", 0, false⟩

/-- A much sharper frame (sharpness 200) whose replacement write raises. -/
def dBad : FrameData := ⟨200, 0, 0, "", 0, true⟩

/-- A fully blurry frame (sharpness 0). -/
def dBlur : FrameData := ⟨0, 0, 0, "", 0, false⟩

/-- A video every frame of which is `dSharp`. -/
def vidSharp : ℕ → Option FrameData := fun _ => some dSharp

/-- A video every frame of which is `dBetter`. -/
def vidBetter : ℕ → Option FrameData := fun _ => some dBetter

/-- A video every frame of which is `dBad`. -/
def vidBad : ℕ → Option FrameData := fun _ => some dBad

/-- A video every frame of which is blurry. -/
def vidBlur : ℕ → Option FrameData := fun _ => some dBlur

/-- An incumbent keyframe record of sharpness 60. -/
def rW : KeyframeRecord := ⟨"v_slides/slide_001.png", 0, 60, 0, 0⟩

/-- The matching incumbent `last_saved` entry. -/
def lsW : LastSaved := ⟨0, 60, 0, 0, "", 0, "v_slides/slide_001.png"⟩

/-- A selector state holding exactly the incumbent `rW`. -/
def sW : SelState := ⟨[rW], some lsW⟩

/-- The frame rate 27/5 = 5.4, which `round` rounds down to 5. -/
def fps54 : ℚ := 27/5

/-! ## Helper lemmas -/

theorem updateLast_append (f : KeyframeRecord → KeyframeRecord)
    (l : List KeyframeRecord) (x : KeyframeRecord) :
    updateLast f (l ++ [x]) = l ++ [f x] := by
  induction l with
  | nil => rfl
  | cons a as ih =>
    cases as with
    | nil => rfl
    | cons b bs =>
      show a :: updateLast f ((b :: bs) ++ [x]) = a :: ((b :: bs) ++ [f x])
      rw [ih]

theorem updateLast_length (f : KeyframeRecord → KeyframeRecord) (l : List KeyframeRecord) :
    (updateLast f l).length = l.length := by
  induction l with
  | nil => rfl
  | cons a as ih =>
    cases as with
    | nil => rfl
    | cons b bs =>
      show (a :: updateLast f (b :: bs)).length = (a :: b :: bs).length
      simp only [List.length_cons]
      simpa using ih

theorem updateLast_map_file (f : KeyframeRecord → KeyframeRecord)
    (hf : ∀ r, (f r).file = r.file) (l : List KeyframeRecord) :
    (updateLast f l).map (fun r => r.file) = l.map (fun r => r.file) := by
  induction l with
  | nil => rfl
  | cons a as ih =>
    cases as with
    | nil => simp [updateLast, hf]
    | cons b bs =>
      show ((a :: updateLast f (b :: bs)).map fun r => r.file) =
        ((a :: b :: bs).map fun r => r.file)
      simp only [List.map_cons]
      rw [show ((updateLast f (b :: bs)).map fun r => r.file) =
        ((b :: bs).map fun r => r.file) from ih]
      rfl

/-! ## C1: quality comparator -/

/-- C1: for every candidate and incumbent `ScoredFrame` and every config,
`is_improvement candidate incumbent cfg` returns `true` iff
`candidate.sharpness > incumbent.sharpness * replace_sharpness_factor` or
`candidate.text_amount > incumbent.text_amount + replace_text_extra`, and the
default configuration has `replace_sharpness_factor = 1.10` and
`replace_text_extra = 10`.  (`is_improvement` is a pure Lean function, so the
decision has no side effects.) -/
theorem C1_quality_comparator :
    (∀ (candidate incumbent : ScoredFrame) (cfg : Config),
      is_improvement candidate incumbent cfg = true ↔
        (incumbent.sharpness * cfg.replace_sharpness_factor < candidate.sharpness ∨
         incumbent.text_amount + cfg.replace_text_extra < candidate.text_amount)) ∧
    ({} : Config).replace_sharpness_factor = 11/10 ∧
    ({} : Config).replace_text_extra = 10 := by
  refine ⟨fun c i cfg => ?_, rfl, rfl⟩
  simp [is_improvement]

/-! ## C10: sampling step clamp and termination -/

/-- C10: for every config and fps (in particular whenever
`round(capture_interval_seconds * fps)` rounds to 0 or below), the sampling
step is clamped to at least 1 source frame, the loop visits at most
`total_frames` sample positions, and the visited positions strictly
increase. -/
theorem C10_step_clamped_terminates (cfg : Config) (fps : ℚ) (total_frames : ℕ) :
    1 ≤ interval_frames cfg fps ∧
    (sampleIndices total_frames (interval_frames cfg fps)).length ≤ total_frames ∧
    (sampleIndices total_frames (interval_frames cfg fps)).Pairwise (· < ·) := by
  have hd1 : 1 ≤ interval_frames cfg fps := by
    have h1 : (1 : ℤ) ≤ max 1 (pyRound (cfg.capture_interval_seconds * fps)) := le_max_left _ _
    have h2 := Int.toNat_le_toNat h1
    simpa [interval_frames] using h2
  have hpos : 0 < interval_frames cfg fps := hd1
  refine ⟨hd1, ?_, ?_⟩
  · unfold sampleIndices
    rw [List.length_map, List.length_range]
    rw [Nat.lt_succ_iff.symm, Nat.succ_eq_add_one, Nat.div_lt_iff_lt_mul hpos,
      Nat.succ_mul]
    have hmul : total_frames ≤ total_frames * interval_frames cfg fps :=
      Nat.le_mul_of_pos_right _ hpos
    omega
  · unfold sampleIndices
    rw [List.pairwise_map]
    exact (List.pairwise_lt_range _).imp (fun h => (mul_lt_mul_right hpos).mpr h)

/-! ## C6: fallback sampler positions -/

/-- C6: for every `total_frames` the fallback sampler samples exactly
`min 20 (max 1 (total_frames / 100))` positions, and the `i`-th position is
frame index `⌊(i / count) * total_frames⌋`. -/
theorem C6_fallback_positions (total_frames : ℕ) :
    (fallbackPositions total_frames).length = min 20 (max 1 (total_frames / 100)) ∧
    ∀ i, i < min 20 (max 1 (total_frames / 100)) →
      (fallbackPositions total_frames).getD i 0 =
        (⌊((i : ℚ) / ((min 20 (max 1 (total_frames / 100)) : ℕ) : ℚ)) *
          (total_frames : ℚ)⌋).toNat := by
  constructor
  · unfold fallbackPositions
    rw [List.length_map, List.length_range]
    rfl
  · intro i hi
    have hlen : i < (fallbackPositions total_frames).length := by
      unfold fallbackPositions
      rw [List.length_map, List.length_range]
      exact hi
    rw [List.getD_eq_getElem _ _ hlen]
    have hmax : max 1 (fbCount total_frames) = fbCount total_frames := by
      have h1 : 1 ≤ fbCount total_frames := by unfold fbCount; omega
      omega
    unfold fallbackPositions
    rw [List.getElem_map, List.getElem_range, hmax]
    rfl

/-- Witness for C6: a 250-frame video gets `min 20 (max 1 2) = 2` fallback
positions, and position 1 is `⌊(1/2) * 250⌋`. -/
theorem C6_fallback_positions_witness :
    (fallbackPositions 250).length = min 20 (max 1 (250 / 100)) ∧
    (fallbackPositions 250).getD 1 0 =
      (⌊(((1 : ℕ) : ℚ) / ((min 20 (max 1 (250 / 100)) : ℕ) : ℚ)) * ((250 : ℕ) : ℚ)⌋).toNat :=
  ⟨(C6_fallback_positions 250).1, (C6_fallback_positions 250).2 1 (by decide)⟩

/-! ## C3: idempotence of rejection -/

/-- C3: while an incumbent exists, if the candidate's similarity to the
incumbent is at or above the threshold and the quality comparator reports no
improvement, the whole selector state — the keyframe list (hence its length
and every record in it) and the incumbent — is unchanged by the sample. -/
theorem C3_rejection_idempotent (cfg : Config) (corrF : ℕ → ℕ → ℚ) (dir : String) (fps : ℚ)
    (video : ℕ → Option FrameData) (s : SelState) (i : ℕ) (d : FrameData) (ls : LastSaved)
    (hv : video i = some d) (hls : s.last_saved = some ls)
    (hsim : cfg.similarity_threshold ≤ corrF d.hist ls.hist)
    (himp : is_improvement (d.toScored ((i : ℚ) / fps)) ls.toScored cfg = false) :
    processSample cfg corrF dir fps video s i = s := by
  unfold processSample
  rw [hv]
  simp only
  split
  · rfl
  · rw [hls]
    simp only
    rw [if_neg (not_lt.mpr hsim), himp]
    simp

/-- Helper: with the witness fixtures, a candidate equal in quality to the
incumbent is no improvement. -/
theorem impSharp_false :
    is_improvement (dSharp.toScored (((5 : ℕ) : ℚ) / 1)) lsW.toScored cfgW = false := by
  norm_num [is_improvement, dSharp, lsW, cfgW, FrameData.toScored, LastSaved.toScored]

/-- Witness for C3: a similar-but-not-better sample leaves the state `sW`
unchanged. -/
theorem C3_rejection_idempotent_witness :
    processSample cfgW corr1 "v_slides" 1 (fun _ => some dSharp) sW 5 = sW :=
  C3_rejection_idempotent cfgW corr1 "v_slides" 1 (fun _ => some dSharp) sW 5 dSharp lsW
    rfl rfl (by decide) impSharp_false

/-! ## C4: in-place replacement effect -/

/-- C4: when a similar candidate is judged an improvement and the write
succeeds, the incumbent record (the last of `captured`) keeps its position and
its `file` (hence its sequence index and storage reference) while its
timestamp, sharpness, edge density and text amount become the candidate's
values; the list length is unchanged, and the incumbent `last_saved` keeps its
file while taking the candidate's data. -/
theorem C4_replacement_in_place (cfg : Config) (corrF : ℕ → ℕ → ℚ) (dir : String) (fps : ℚ)
    (video : ℕ → Option FrameData) (s : SelState) (i : ℕ) (d : FrameData) (ls : LastSaved)
    (init : List KeyframeRecord) (r : KeyframeRecord)
    (hv : video i = some d) (hsharp : ¬ d.sharpness < cfg.min_sharpness)
    (hls : s.last_saved = some ls)
    (hsim : cfg.similarity_threshold ≤ corrF d.hist ls.hist)
    (himp : is_improvement (d.toScored ((i : ℚ) / fps)) ls.toScored cfg = true)
    (hfile : ls.file ≠ "") (hw : d.writeFails = false)
    (hcap : s.captured = init ++ [r]) :
    (processSample cfg corrF dir fps video s i).captured =
      init ++ [{ r with time := (i : ℚ) / fps, sharpness := d.sharpness,
                        edge_density := d.edge_density, text_amount := d.text_amount }] ∧
    (processSample cfg corrF dir fps video s i).captured.length = s.captured.length ∧
    (processSample cfg corrF dir fps video s i).last_saved =
      some ⟨(i : ℚ) / fps, d.sharpness, d.edge_density, d.text_amount,
        d.text_content, d.hist, ls.file⟩ := by
  have hstep : processSample cfg corrF dir fps video s i =
      { captured := updateLast (fun r =>
          { r with time := (i : ℚ) / fps, sharpness := d.sharpness,
                   edge_density := d.edge_density, text_amount := d.text_amount }) s.captured,
        last_saved := some ⟨(i : ℚ) / fps, d.sharpness, d.edge_density, d.text_amount,
          d.text_content, d.hist, ls.file⟩ } := by
    unfold processSample
    rw [hv]
    simp only
    rw [if_neg hsharp, hls]
    simp only
    rw [if_neg (not_lt.mpr hsim), himp]
    simp [hfile, hw]
  rw [hstep, hcap]
  refine ⟨updateLast_append _ _ _, ?_, rfl⟩
  simp [updateLast_append]

/-- Helper: with the witness fixtures, the sharper candidate `dBetter` is an
improvement over the incumbent. -/
theorem impBetter_true :
    is_improvement (dBetter.toScored (((5 : ℕ) : ℚ) / 1)) lsW.toScored cfgW = true := by
  norm_num [is_improvement, dBetter, lsW, cfgW, FrameData.toScored, LastSaved.toScored]

/-- Witness for C4: replacing the incumbent of `sW` by the sharper frame at
sample index 5 updates the scalar fields in place. -/
theorem C4_replacement_in_place_witness :
    (processSample cfgW corr1 "v_slides" 1 vidBetter sW 5).captured =
      [] ++ [{ rW with time := ((5 : ℕ) : ℚ) / 1, sharpness := dBetter.sharpness,
                       edge_density := dBetter.edge_density,
                       text_amount := dBetter.text_amount }] ∧
    (processSample cfgW corr1 "v_slides" 1 vidBetter sW 5).captured.length =
      sW.captured.length ∧
    (processSample cfgW corr1 "v_slides" 1 vidBetter sW 5).last_saved =
      some ⟨((5 : ℕ) : ℚ) / 1, dBetter.sharpness, dBetter.edge_density, dBetter.text_amount,
        dBetter.text_content, dBetter.hist, lsW.file⟩ :=
  C4_replacement_in_place cfgW corr1 "v_slides" 1 vidBetter sW 5 dBetter lsW [] rW rfl
    (by decide) rfl (by decide) impBetter_true (by decide) rfl rfl

/-! ## C8: failed replacement write -/

/-- C8: when a replacement is attempted but persisting the image raises, the
sample leaves the whole selector state unchanged: the incumbent keeps its
storage reference, position and scalar fields.  (`processSample` is a total
function, so no exception escapes the selector in the model; the source
catches the write error at lines 182–184 and continues.) -/
theorem C8_failed_write_keeps_incumbent (cfg : Config) (corrF : ℕ → ℕ → ℚ) (dir : String)
    (fps : ℚ) (video : ℕ → Option FrameData) (s : SelState) (i : ℕ) (d : FrameData)
    (ls : LastSaved)
    (hv : video i = some d) (hls : s.last_saved = some ls)
    (hsim : cfg.similarity_threshold ≤ corrF d.hist ls.hist)
    (himp : is_improvement (d.toScored ((i : ℚ) / fps)) ls.toScored cfg = true)
    (hw : d.writeFails = true) :
    processSample cfg corrF dir fps video s i = s := by
  unfold processSample
  rw [hv]
  simp only
  split
  · rfl
  · rw [hls]
    simp only
    rw [if_neg (not_lt.mpr hsim), himp]
    simp [hw]

/-- Helper: with the witness fixtures, the sharper candidate `dBad` is an
improvement over the incumbent. -/
theorem impBad_true :
    is_improvement (dBad.toScored (((5 : ℕ) : ℚ) / 1)) lsW.toScored cfgW = true := by
  norm_num [is_improvement, dBad, lsW, cfgW, FrameData.toScored, LastSaved.toScored]

/-- Witness for C8: an improving candidate whose write raises leaves `sW`
unchanged. -/
theorem C8_failed_write_keeps_incumbent_witness :
    processSample cfgW corr1 "v_slides" 1 vidBad sW 5 = sW :=
  C8_failed_write_keeps_incumbent cfgW corr1 "v_slides" 1 vidBad sW 5 dBad lsW rfl rfl
    (by decide) impBad_true rfl

/-! ## Decimal naming: injectivity of the slide file names -/

theorem digitsRev_eq_digits (fuel : ℕ) : ∀ n : ℕ, n ≤ fuel → digitsRev fuel n = Nat.digits 10 n := by
  induction fuel with
  | zero =>
    intro n hn
    have h0 : n = 0 := by omega
    subst h0
    rw [show digitsRev 0 0 = [] from rfl, Nat.digits_zero]
  | succ f ih =>
    intro n hn
    cases n with
    | zero => simp [digitsRev]
    | succ m =>
      have hdiv : (m + 1) / 10 ≤ f := by omega
      rw [show digitsRev (f + 1) (m + 1) = (m + 1) % 10 :: digitsRev f ((m + 1) / 10) from rfl]
      rw [ih ((m + 1) / 10) hdiv]
      exact (Nat.digits_def' (by norm_num) (Nat.succ_pos m)).symm

theorem natChars_eq (n : ℕ) (h : n ≠ 0) :
    natChars n = ((Nat.digits 10 n).reverse).map digitChar := by
  unfold natChars
  rw [if_neg h, digitsRev_eq_digits n n le_rfl]

theorem digitChar_inj : ∀ a : ℕ, a < 10 → ∀ b : ℕ, b < 10 → digitChar a = digitChar b → a = b := by
  decide

theorem map_digitChar_inj : ∀ l₁ l₂ : List ℕ, (∀ x ∈ l₁, x < 10) → (∀ x ∈ l₂, x < 10) →
    l₁.map digitChar = l₂.map digitChar → l₁ = l₂ := by
  intro l₁
  induction l₁ with
  | nil =>
    intro l₂ _ _ h
    cases l₂ with
    | nil => rfl
    | cons b bs => simp at h
  | cons a as ih =>
    intro l₂ h1 h2 h
    cases l₂ with
    | nil => simp at h
    | cons b bs =>
      simp only [List.map_cons, List.cons.injEq] at h
      have hab := digitChar_inj a (h1 a (by simp)) b (h2 b (by simp)) h.1
      rw [hab, ih bs (fun x hx => h1 x (by simp [hx])) (fun x hx => h2 x (by simp [hx])) h.2]

theorem natChars_inj : ∀ a b : ℕ, natChars a = natChars b → a = b := by
  have key : ∀ a b : ℕ, a ≠ 0 → b ≠ 0 → natChars a = natChars b → a = b := by
    intro a b ha hb h
    rw [natChars_eq a ha, natChars_eq b hb] at h
    have hda : ∀ x ∈ (Nat.digits 10 a).reverse, x < 10 := by
      intro x hx
      exact Nat.digits_lt_base (by norm_num) (List.mem_reverse.mp hx)
    have hdb : ∀ x ∈ (Nat.digits 10 b).reverse, x < 10 := by
      intro x hx
      exact Nat.digits_lt_base (by norm_num) (List.mem_reverse.mp hx)
    have h2 := map_digitChar_inj _ _ hda hdb h
    have h3 : Nat.digits 10 a = Nat.digits 10 b := by
      have := congrArg List.reverse h2
      simpa using this
    have h4 := congrArg (Nat.ofDigits 10) h3
    rwa [Nat.ofDigits_digits, Nat.ofDigits_digits] at h4
  have zcase : ∀ b : ℕ, b ≠ 0 → natChars 0 ≠ natChars b := by
    intro b hb h
    rw [natChars_eq b hb] at h
    have hdb : ∀ x ∈ (Nat.digits 10 b).reverse, x < 10 := by
      intro x hx
      exact Nat.digits_lt_base (by norm_num) (List.mem_reverse.mp hx)
    have h0 : natChars 0 = List.map digitChar [0] := by decide
    rw [h0] at h
    have h2 := map_digitChar_inj _ _ (by intro x hx; simp at hx; omega) hdb h
    have h3 : Nat.digits 10 b = [0] := by
      have h5 := congrArg List.reverse h2
      simpa using h5.symm
    have h4 := congrArg (Nat.ofDigits 10) h3
    rw [Nat.ofDigits_digits] at h4
    simp [Nat.ofDigits] at h4
    exact hb h4
  intro a b h
  rcases Nat.eq_zero_or_pos a with ha | ha
  · rcases Nat.eq_zero_or_pos b with hb | hb
    · rw [ha, hb]
    · exact absurd (ha ▸ h) (zcase b (by omega))
  · rcases Nat.eq_zero_or_pos b with hb | hb
    · exact absurd (hb ▸ h.symm) (zcase a (by omega))
    · exact key a b (by omega) (by omega) h

theorem dropWhile_replicate_zero (k : ℕ) (l : List Char) :
    (List.replicate k '0' ++ l).dropWhile (fun c => c == '0') =
      l.dropWhile (fun c => c == '0') := by
  induction k with
  | zero => rfl
  | succ k ih =>
    rw [List.replicate_succ, List.cons_append, List.dropWhile_cons]
    simpa using ih

theorem natChars_head_form (n : ℕ) (h : n ≠ 0) :
    ∃ d rest, natChars n = digitChar d :: rest ∧ d < 10 ∧ d ≠ 0 := by
  rw [natChars_eq n h]
  have hnil : Nat.digits 10 n ≠ [] := Nat.digits_ne_nil_iff_ne_zero.mpr h
  obtain ⟨d, rest, hrev⟩ : ∃ d rest, (Nat.digits 10 n).reverse = d :: rest := by
    cases hr : (Nat.digits 10 n).reverse with
    | nil =>
      exfalso
      apply hnil
      have := congrArg List.reverse hr
      simpa using this
    | cons d rest => exact ⟨d, rest, rfl⟩
  refine ⟨d, rest.map digitChar, by rw [hrev]; rfl, ?_, ?_⟩
  · have hmem : d ∈ Nat.digits 10 n := by
      rw [← List.mem_reverse, hrev]
      simp
    exact Nat.digits_lt_base (by norm_num) hmem
  · have hlast := Nat.getLast_digit_ne_zero 10 h
    have hld : (Nat.digits 10 n).getLast (Nat.digits_ne_nil_iff_ne_zero.mpr h) = d := by
      have h1 : (Nat.digits 10 n).getLast? = some d := by
        rw [← List.head?_reverse, hrev]
        rfl
      have h2 := List.getLast?_eq_getLast (Nat.digits 10 n) (Nat.digits_ne_nil_iff_ne_zero.mpr h)
      rw [h1] at h2
      exact (Option.some.inj h2).symm
    rw [← hld]
    exact hlast

theorem digitChar_ne_zeroChar : ∀ d : ℕ, d < 10 → d ≠ 0 → ((digitChar d == '0') = false) := by
  decide

theorem dropWhile_natChars (n : ℕ) (h : n ≠ 0) :
    (natChars n).dropWhile (fun c => c == '0') = natChars n := by
  obtain ⟨d, rest, heq, hlt, hne⟩ := natChars_head_form n h
  rw [heq, List.dropWhile_cons, digitChar_ne_zeroChar d hlt hne]
  simp

theorem natChars_ne_nil (n : ℕ) : natChars n ≠ [] := by
  unfold natChars
  split
  · simp
  · intro hc
    have h2 := congrArg List.length hc
    simp only [List.length_map, List.length_reverse, List.length_nil] at h2
    rename_i hn
    rw [digitsRev_eq_digits n n le_rfl] at h2
    exact (Nat.digits_ne_nil_iff_ne_zero.mpr hn) (List.length_eq_zero.mp h2)

theorem pad3_inj : ∀ a b : ℕ, pad3 a = pad3 b → a = b := by
  intro a b h
  unfold pad3 at h
  have h2 := congrArg (List.dropWhile (fun c => c == '0')) h
  rw [dropWhile_replicate_zero, dropWhile_replicate_zero] at h2
  rcases Nat.eq_zero_or_pos a with ha | ha
  · rcases Nat.eq_zero_or_pos b with hb | hb
    · omega
    · exfalso
      rw [ha] at h2
      rw [dropWhile_natChars b (by omega)] at h2
      have h0 : (natChars 0).dropWhile (fun c => c == '0') = [] := by decide
      rw [h0] at h2
      exact natChars_ne_nil b h2.symm
  · rcases Nat.eq_zero_or_pos b with hb | hb
    · exfalso
      rw [hb] at h2
      rw [dropWhile_natChars a (by omega)] at h2
      have h0 : (natChars 0).dropWhile (fun c => c == '0') = [] := by decide
      rw [h0] at h2
      exact natChars_ne_nil a h2
    · rw [dropWhile_natChars a (by omega), dropWhile_natChars b (by omega)] at h2
      exact natChars_inj a b h2

theorem slideName_inj (dir : String) : ∀ a b : ℕ, slideName dir a = slideName dir b → a = b := by
  intro a b h
  unfold slideName at h
  have hdata := congrArg String.data h
  simp only [String.data_append, List.append_assoc] at hdata
  have h1 := List.append_cancel_left hdata
  have h2 := List.append_cancel_left h1
  have h3 := List.append_cancel_right h2
  exact pad3_inj a b h3

theorem processSample_captured_cases (cfg : Config) (corrF : ℕ → ℕ → ℚ) (dir : String)
    (fps : ℚ) (video : ℕ → Option FrameData) (s : SelState) (i : ℕ) :
    (processSample cfg corrF dir fps video s i).captured = s.captured ∨
    (∃ t sh ed ta, (processSample cfg corrF dir fps video s i).captured =
        s.captured ++ [⟨slideName dir (s.captured.length + 1), t, sh, ed, ta⟩]) ∨
    (∃ f : KeyframeRecord → KeyframeRecord, (∀ r, (f r).file = r.file) ∧
        (processSample cfg corrF dir fps video s i).captured = updateLast f s.captured) := by
  unfold processSample
  cases hv : video i with
  | none => exact Or.inl rfl
  | some d =>
    simp only
    split
    · exact Or.inl rfl
    · cases hls : s.last_saved with
      | none => exact Or.inr (Or.inl ⟨_, _, _, _, rfl⟩)
      | some ls =>
        simp only
        split
        · exact Or.inr (Or.inl ⟨_, _, _, _, rfl⟩)
        · split
          · split
            · exact Or.inl rfl
            · split
              · exact Or.inl rfl
              · refine Or.inr (Or.inr ⟨_, ?_, rfl⟩)
                intro r
                rfl
          · exact Or.inl rfl

theorem contentFiles_invariant (cfg : Config) (corrF : ℕ → ℕ → ℚ) (dir : String) (fps : ℚ)
    (video : ℕ → Option FrameData) (il : List ℕ) (s : SelState)
    (hs : s.captured.map (fun r => r.file) =
      (List.range s.captured.length).map (fun k => slideName dir (k + 1))) :
    (List.foldl (processSample cfg corrF dir fps video) s il).captured.map (fun r => r.file) =
      (List.range (List.foldl (processSample cfg corrF dir fps video) s il).captured.length).map
        (fun k => slideName dir (k + 1)) := by
  refine List.foldlRecOn (motive := fun st : SelState =>
      st.captured.map (fun r => r.file) =
        (List.range st.captured.length).map (fun k => slideName dir (k + 1)))
    il (processSample cfg corrF dir fps video) s hs ?_
  intro b hb i hi
  rcases processSample_captured_cases cfg corrF dir fps video b i with hcase | ⟨t, sh, ed, ta, hcase⟩ | ⟨f, hf, hcase⟩
  · rw [hcase]
    exact hb
  · rw [hcase]
    simp only [List.map_append, List.length_append, List.map_cons, List.map_nil,
      List.length_cons, List.length_nil]
    rw [hb]
    rw [show b.captured.length + (0 + 1) = b.captured.length + 1 by omega]
    rw [List.range_succ]
    simp
  · rw [hcase, updateLast_map_file f hf, updateLast_length]
    exact hb

theorem mergeFallback_files_nodup (fallback : List KeyframeRecord) :
    ∀ content : List KeyframeRecord, (content.map (fun r => r.file)).Nodup →
      ((mergeFallback content fallback).map (fun r => r.file)).Nodup := by
  induction fallback with
  | nil => intro c h; exact h
  | cons f fs ih =>
    intro c h
    show ((List.foldl _ (if f.file ∈ c.map (fun r => r.file) then c else c ++ [f]) fs).map
      (fun r => r.file)).Nodup
    split
    · exact ih c h
    · apply ih
      rename_i hnot
      have hperm : ((c ++ [f]).map fun r => r.file).Perm (f.file :: c.map fun r => r.file) := by
        simp only [List.map_append, List.map_cons, List.map_nil]
        exact List.perm_append_singleton _ _
      refine hperm.nodup_iff.mpr ?_
      exact List.Nodup.cons hnot h

theorem contentState_files (cfg : Config) (corrF : ℕ → ℕ → ℚ) (dir : String) (fps : ℚ)
    (video : ℕ → Option FrameData) (total_frames : ℕ) :
    (contentState cfg corrF dir fps video total_frames).captured.map (fun r => r.file) =
      (List.range (contentState cfg corrF dir fps video total_frames).captured.length).map
        (fun k => slideName dir (k + 1)) :=
  contentFiles_invariant cfg corrF dir fps video _ ⟨[], none⟩ (by simp)

/-- C5: every `KeyframeSet` produced by `extract_best_frames` — including
after the fallback merge — has pairwise-distinct storage references. -/
theorem C5_storage_references_unique (cfg : Config) (corrF : ℕ → ℕ → ℚ) (video : ℕ → Option FrameData)
    (total_frames : ℕ) (fps : ℚ) (output_name : String) :
    ((extract_best_frames cfg corrF video total_frames fps output_name).map
      (fun r => r.file)).Nodup := by
  have hcontent : ((contentState cfg corrF (output_name ++ "_slides") fps video
      total_frames).captured.map (fun r => r.file)).Nodup := by
    rw [contentState_files]
    refine List.Nodup.map ?_ (List.nodup_range _)
    intro a b hab
    have := slideName_inj (output_name ++ "_slides") (a + 1) (b + 1) hab
    omega
  simp only [extract_best_frames]
  split
  · exact mergeFallback_files_nodup _ _ hcontent
  · exact hcontent

/-! ## C9: empty keyframe set aborts the pipeline -/

/-- C9: when the extraction pass completes (the video opened) but yields an
empty keyframe list, `process_video_to_pdf` returns `None` without attempting
PDF creation and without removing the downloaded video — the same outcome as a
fatal extraction failure (video not opened), which the single falsiness check
of source line 320 cannot distinguish. -/
theorem C9_empty_set_aborts_pipeline (dl : String) (cfg : Config) (corrF : ℕ → ℕ → ℚ) (video : ℕ → Option FrameData)
    (total_frames : ℕ) (fps : ℚ) (pdf_write_ok video_exists : Bool) (name : String)
    (hempty : extract_best_frames cfg corrF video total_frames fps name = []) :
    process_video_to_pdf (some dl) true cfg corrF video total_frames fps
      pdf_write_ok video_exists name = ⟨none, false, false⟩ ∧
    process_video_to_pdf (some dl) true cfg corrF video total_frames fps
        pdf_write_ok video_exists name =
      process_video_to_pdf (some dl) false cfg corrF video total_frames fps
        pdf_write_ok video_exists name := by
  unfold process_video_to_pdf extractResult
  simp [hempty]

/-- Helper: with the witness config, the sampling step at 1 fps is 1 frame. -/
theorem intervalW_one : interval_frames cfgW 1 = 1 := by
  norm_num [interval_frames, pyRound, cfgW]

/-- Helper: a uniformly blurry 1-frame video yields an empty extraction (the
content pass rejects its sample and the fallback pass rejects its one
position). -/
theorem extract_blur_empty : extract_best_frames cfgW corr1 vidBlur 1 1 "v" = [] := by
  have h1 : contentState cfgW corr1 "v_slides" 1 vidBlur 1 = ⟨[], none⟩ := by
    unfold contentState
    rw [intervalW_one]
    decide
  simp only [extract_best_frames]
  rw [show ("v" ++ "_slides" : String) = "v_slides" from rfl, h1]
  decide

theorem processSample_length_le (cfg : Config) (corrF : ℕ → ℕ → ℚ) (dir : String)
    (fps : ℚ) (video : ℕ → Option FrameData) (s : SelState) (i : ℕ) :
    (processSample cfg corrF dir fps video s i).captured.length ≤ s.captured.length + 1 := by
  rcases processSample_captured_cases cfg corrF dir fps video s i with
    h | ⟨t, sh, ed, ta, h⟩ | ⟨f, hf, h⟩
  · rw [h]; omega
  · rw [h]; simp
  · rw [h, updateLast_length]; omega

theorem foldl_length_le (cfg : Config) (corrF : ℕ → ℕ → ℚ) (dir : String) (fps : ℚ)
    (video : ℕ → Option FrameData) :
    ∀ (il : List ℕ) (s : SelState),
      (List.foldl (processSample cfg corrF dir fps video) s il).captured.length ≤
        s.captured.length + il.length := by
  intro il
  induction il with
  | nil => intro s; simp
  | cons i is ih =>
    intro s
    simp only [List.foldl_cons, List.length_cons]
    have h1 := ih (processSample cfg corrF dir fps video s i)
    have h2 := processSample_length_le cfg corrF dir fps video s i
    omega

theorem mergeFallback_length_le (fallback : List KeyframeRecord) :
    ∀ content : List KeyframeRecord,
      (mergeFallback content fallback).length ≤ content.length + fallback.length := by
  induction fallback with
  | nil => intro c; simp [mergeFallback]
  | cons f fs ih =>
    intro c
    show (List.foldl _ (if f.file ∈ c.map (fun r => r.file) then c else c ++ [f]) fs).length ≤ _
    split
    · have h1 := ih c
      unfold mergeFallback at h1
      simp only [List.length_cons]
      omega
    · have h1 := ih (c ++ [f])
      unfold mergeFallback at h1
      simp only [List.length_append, List.length_cons, List.length_nil] at h1 ⊢
      omega

/-! ## C2: length bound -/

/-- C2 (amended): the final set length is bounded by
`⌈total_frames / interval_frames⌉ + fallback_count`, where `interval_frames`
is the clamped rounded sampling step of the source. -/
theorem C2_length_bound_amended (cfg : Config) (corrF : ℕ → ℕ → ℚ) (video : ℕ → Option FrameData)
    (total_frames : ℕ) (fps : ℚ) (name : String) :
    (extract_best_frames cfg corrF video total_frames fps name).length ≤
      (total_frames + interval_frames cfg fps - 1) / interval_frames cfg fps +
      (fallback_capture cfg (name ++ "_slides") total_frames fps video).length := by
  have hcontent : (contentState cfg corrF (name ++ "_slides") fps video
      total_frames).captured.length ≤
      (total_frames + interval_frames cfg fps - 1) / interval_frames cfg fps := by
    have h := foldl_length_le cfg corrF (name ++ "_slides") fps video
      (sampleIndices total_frames (interval_frames cfg fps)) ⟨[], none⟩
    unfold contentState
    have hlen : (sampleIndices total_frames (interval_frames cfg fps)).length =
        (total_frames + interval_frames cfg fps - 1) / interval_frames cfg fps := by
      unfold sampleIndices
      rw [List.length_map, List.length_range]
    simp only [List.length_nil] at h
    omega
  simp only [extract_best_frames]
  split
  · have h1 := mergeFallback_length_le
      (fallback_capture cfg (name ++ "_slides") total_frames fps video)
      (contentState cfg corrF (name ++ "_slides") fps video total_frames).captured
    omega
  · omega

/-- Helper: with interval 1 s and fps 27/5 = 5.4, the rounded sampling step is
5 source frames (strictly below `interval * fps = 5.4`). -/
theorem interval54 : interval_frames cfgW fps54 = 5 := by
  norm_num [interval_frames, pyRound, cfgW, fps54]
  decide

/-- Helper: on an all-sharp video with an always-0 similarity comparator,
every sample is accepted as a new record. -/
theorem stepSharp (dir : String) (fps : ℚ) (s : SelState) (i : ℕ) :
    (processSample cfgW corr0 dir fps vidSharp s i).captured =
      s.captured ++ [⟨slideName dir (s.captured.length + 1), (i : ℚ) / fps,
        dSharp.sharpness, dSharp.edge_density, dSharp.text_amount⟩] := by
  unfold processSample vidSharp
  simp only
  rw [if_neg (show ¬ (dSharp.sharpness < cfgW.min_sharpness) by norm_num [dSharp, cfgW])]
  cases s.last_saved with
  | none => rfl
  | some ls =>
    simp only
    rw [if_pos (show corr0 dSharp.hist ls.hist < cfgW.similarity_threshold by
      norm_num [corr0, cfgW])]

theorem foldSharp_len (dir : String) (fps : ℚ) : ∀ (il : List ℕ) (s : SelState),
    (List.foldl (processSample cfgW corr0 dir fps vidSharp) s il).captured.length =
      s.captured.length + il.length := by
  intro il
  induction il with
  | nil => intro s; simp
  | cons i is ih =>
    intro s
    simp only [List.foldl_cons, List.length_cons]
    rw [ih]
    have h := congrArg List.length (stepSharp dir fps s i)
    simp only [List.length_append, List.length_cons, List.length_nil] at h
    omega

theorem fbSharp_len (dir : String) (fps : ℚ) : ∀ (ps : List ℕ) (acc : List KeyframeRecord),
    (List.foldl (fbStep cfgW dir fps vidSharp) acc ps).length = acc.length + ps.length := by
  intro ps
  induction ps with
  | nil => intro acc; simp
  | cons p rest ih =>
    intro acc
    simp only [List.foldl_cons, List.length_cons]
    rw [ih]
    have hstep : (fbStep cfgW dir fps vidSharp acc p).length = acc.length + 1 := by
      unfold fbStep vidSharp
      simp only
      rw [if_neg (show ¬ (dSharp.sharpness < cfgW.min_sharpness) by norm_num [dSharp, cfgW])]
      simp
    omega

theorem contentSharp_2000 :
    (contentState cfgW corr0 "v_slides" fps54 vidSharp 2000).captured.length = 400 := by
  unfold contentState
  rw [interval54, foldSharp_len]
  decide

theorem fbSharp_2000 :
    (fallback_capture cfgW "v_slides" 2000 fps54 vidSharp).length = 20 := by
  unfold fallback_capture
  rw [fbSharp_len]
  decide

theorem ceil_duration_2000 :
    ⌈videoDuration 2000 fps54 / cfgW.capture_interval_seconds⌉ = 371 := by
  rw [show videoDuration 2000 fps54 / cfgW.capture_interval_seconds = (10000/27 : ℚ) by
    norm_num [videoDuration, fps54, cfgW]]
  rw [Int.ceil_eq_iff]
  constructor <;> norm_num

/-- Counterexample to C2 as stated: a 2000-frame, 5.4 fps, all-sharp,
all-distinct video sampled at 1 s intervals is sampled every
`max(1, round(5.4)) = 5` frames, producing 400 keyframes, while
`⌈duration / interval⌉ = ⌈(2000 / 5.4) / 1⌉ = 371` and the fallback sampler
returns 20 records: `400 > 371 + 20`. -/
theorem C2_length_bound_counterexample :
    ¬ ((extract_best_frames cfgW corr0 vidSharp 2000 fps54 "v").length ≤
      (⌈videoDuration 2000 fps54 / cfgW.capture_interval_seconds⌉).toNat +
      (fallback_capture cfgW "v_slides" 2000 fps54 vidSharp).length) := by
  have hextract : (extract_best_frames cfgW corr0 vidSharp 2000 fps54 "v").length = 400 := by
    simp only [extract_best_frames]
    rw [show ("v" ++ "_slides" : String) = "v_slides" from rfl]
    rw [if_neg (by rw [contentSharp_2000]; norm_num)]
    exact contentSharp_2000
  rw [hextract, ceil_duration_2000, fbSharp_2000]
  decide

/-- Witness for C9: the blurry 1-frame video extracts an empty list, and the
pipeline outcome equals the fatal-failure outcome. -/
theorem C9_empty_set_aborts_pipeline_witness :
    process_video_to_pdf (some "url") true cfgW corr1 vidBlur 1 1 true true "v" =
      ⟨none, false, false⟩ ∧
    process_video_to_pdf (some "url") true cfgW corr1 vidBlur 1 1 true true "v" =
      process_video_to_pdf (some "url") false cfgW corr1 vidBlur 1 1 true true "v" :=
  C9_empty_set_aborts_pipeline "url" cfgW corr1 vidBlur 1 1 true true "v" extract_blur_empty

/-! ## C7: lexicographic order of storage references -/

theorem data_mk (l : List Char) : (String.mk l).data = l := rfl

theorem charsLe_append_left (p : List Char) :
    ∀ u v, charsLe (p ++ u) (p ++ v) = charsLe u v := by
  induction p with
  | nil => intro u v; rfl
  | cons a as ih =>
    intro u v
    show (if a.toNat < a.toNat then true
      else if a.toNat < a.toNat then false
      else charsLe (as ++ u) (as ++ v)) = charsLe u v
    rw [if_neg (Nat.lt_irrefl _), if_neg (Nat.lt_irrefl _)]
    exact ih u v

theorem charsLe_head_lt (a b : Char) (u v : List Char) (h : a.toNat < b.toNat) :
    charsLe (a :: u) (b :: v) = true := by
  unfold charsLe
  simp [h]

theorem digitChar_toNat : ∀ d : ℕ, d < 10 → (digitChar d).toNat = 48 + d := by
  decide

theorem pad3_triple : ∀ n : ℕ, n < 1000 →
    pad3 n = [digitChar (n / 100), digitChar (n / 10 % 10), digitChar (n % 10)] := by
  intro n hn
  rcases Nat.eq_zero_or_pos n with h0 | h1
  · subst h0; decide
  by_cases h10 : n < 10
  · have hd : Nat.digits 10 n = [n] := by
      rw [Nat.digits_def' (by norm_num) h1, Nat.mod_eq_of_lt h10, Nat.div_eq_of_lt h10]
      simp
    unfold pad3
    rw [natChars_eq n (by omega), hd]
    rw [Nat.div_eq_of_lt (show n < 100 by omega), Nat.div_eq_of_lt h10,
      Nat.mod_eq_of_lt h10]
    rfl
  by_cases h100 : n < 100
  · have hpos10 : 0 < n / 10 := by omega
    have hlt10 : n / 10 < 10 := by omega
    have hd : Nat.digits 10 n = [n % 10, n / 10] := by
      rw [Nat.digits_def' (by norm_num) h1, Nat.digits_def' (by norm_num) hpos10,
        Nat.mod_eq_of_lt hlt10, Nat.div_eq_of_lt hlt10]
      simp
    unfold pad3
    rw [natChars_eq n (by omega), hd]
    rw [Nat.div_eq_of_lt h100, Nat.mod_eq_of_lt hlt10]
    rfl
  · have hpos10 : 0 < n / 10 := by omega
    have hpos100 : 0 < n / 100 := by omega
    have hlt100 : n / 100 < 10 := by omega
    have hd : Nat.digits 10 n = [n % 10, n / 10 % 10, n / 100] := by
      rw [Nat.digits_def' (by norm_num) h1, Nat.digits_def' (by norm_num) hpos10,
        Nat.digits_def' (by norm_num) (show 0 < n / 10 / 10 by omega)]
      rw [show n / 10 / 10 = n / 100 by omega]
      rw [Nat.mod_eq_of_lt hlt100, Nat.div_eq_of_lt hlt100]
      simp
    unfold pad3
    rw [natChars_eq n (by omega), hd]
    rfl

theorem pad3_lt_suffix (a b : ℕ) (hab : a < b) (hb : b < 1000) (u v : List Char) :
    charsLe (pad3 a ++ u) (pad3 b ++ v) = true := by
  have ha : a < 1000 := by omega
  rw [pad3_triple a ha, pad3_triple b hb]
  have hdigits : a / 100 < 10 ∧ b / 100 < 10 ∧ a / 10 % 10 < 10 ∧ b / 10 % 10 < 10 ∧
      a % 10 < 10 ∧ b % 10 < 10 := by omega
  obtain ⟨h1, h2, h3, h4, h5, h6⟩ := hdigits
  have hcases : a / 100 < b / 100 ∨ (a / 100 = b / 100 ∧
      (a / 10 % 10 < b / 10 % 10 ∨ (a / 10 % 10 = b / 10 % 10 ∧ a % 10 < b % 10))) := by
    omega
  simp only [List.cons_append, List.nil_append]
  rcases hcases with hlt | ⟨heq1, hrest⟩
  · exact charsLe_head_lt _ _ _ _ (by rw [digitChar_toNat _ h1, digitChar_toNat _ h2]; omega)
  · rw [heq1]
    rw [show (digitChar (b / 100) :: digitChar (a / 10 % 10) :: digitChar (a % 10) :: u) =
      [digitChar (b / 100)] ++ (digitChar (a / 10 % 10) :: digitChar (a % 10) :: u) from rfl]
    rw [show (digitChar (b / 100) :: digitChar (b / 10 % 10) :: digitChar (b % 10) :: v) =
      [digitChar (b / 100)] ++ (digitChar (b / 10 % 10) :: digitChar (b % 10) :: v) from rfl]
    rw [charsLe_append_left]
    rcases hrest with hlt | ⟨heq2, hlt3⟩
    · exact charsLe_head_lt _ _ _ _ (by rw [digitChar_toNat _ h3, digitChar_toNat _ h4]; omega)
    · rw [heq2]
      rw [show (digitChar (b / 10 % 10) :: digitChar (a % 10) :: u) =
        [digitChar (b / 10 % 10)] ++ (digitChar (a % 10) :: u) from rfl]
      rw [show (digitChar (b / 10 % 10) :: digitChar (b % 10) :: v) =
        [digitChar (b / 10 % 10)] ++ (digitChar (b % 10) :: v) from rfl]
      rw [charsLe_append_left]
      exact charsLe_head_lt _ _ _ _ (by rw [digitChar_toNat _ h5, digitChar_toNat _ h6]; omega)

theorem charsLe_trans : ∀ l₁ l₂ l₃ : List Char, charsLe l₁ l₂ = true → charsLe l₂ l₃ = true →
    charsLe l₁ l₃ = true := by
  intro l₁
  induction l₁ with
  | nil => intro l₂ l₃ _ _; rfl
  | cons a as ih =>
    intro l₂ l₃ h12 h23
    cases l₂ with
    | nil => simp [charsLe] at h12
    | cons b bs =>
      cases l₃ with
      | nil => simp [charsLe] at h23
      | cons c cs =>
        unfold charsLe at h12 h23 ⊢
        split_ifs at h12 h23 ⊢ with g1 g2 g3 g4 g5 g6
        all_goals try rfl
        all_goals try omega
        · exact ih bs cs h12 h23

theorem charsLe_total : ∀ l₁ l₂ : List Char, charsLe l₁ l₂ = true ∨ charsLe l₂ l₁ = true := by
  intro l₁
  induction l₁ with
  | nil => intro l₂; left; rfl
  | cons a as ih =>
    intro l₂
    cases l₂ with
    | nil => right; rfl
    | cons b bs =>
      rcases Nat.lt_trichotomy a.toNat b.toNat with hlt | heq | hgt
      · left; exact charsLe_head_lt a b as bs hlt
      · rcases ih bs with h | h
        · left
          show (if a.toNat < b.toNat then true
            else if b.toNat < a.toNat then false else charsLe as bs) = true
          rw [if_neg (by omega), if_neg (by omega)]
          exact h
        · right
          show (if b.toNat < a.toNat then true
            else if a.toNat < b.toNat then false else charsLe bs as) = true
          rw [if_neg (by omega), if_neg (by omega)]
          exact h
      · right; exact charsLe_head_lt b a bs as hgt

theorem slide_mono (dir : String) (a b : ℕ) (hab : a < b) (hb : b ≤ 999) :
    strLe (slideName dir a) (slideName dir b) = true := by
  unfold strLe slideName
  simp only [String.data_append, List.append_assoc, data_mk]
  rw [charsLe_append_left, charsLe_append_left]
  exact pad3_lt_suffix a b hab (by omega) _ _

theorem fb_mono (dir : String) (a b : ℕ) (hab : a < b) (hb : b ≤ 999) :
    strLe (fbName dir a) (fbName dir b) = true := by
  unfold strLe fbName
  simp only [String.data_append, List.append_assoc, data_mk]
  rw [charsLe_append_left, charsLe_append_left]
  exact pad3_lt_suffix a b hab (by omega) _ _

theorem slide_fb_mono (dir : String) (a b : ℕ) (ha : a ≤ 999) :
    strLe (slideName dir a) (fbName dir b) = true := by
  unfold strLe slideName fbName
  simp only [String.data_append, List.append_assoc, data_mk]
  rw [charsLe_append_left]
  rw [show ("/slide_fb_".data ++ (pad3 b ++ ".png".data)) =
    "/slide_".data ++ (['f', 'b', '_'] ++ (pad3 b ++ ".png".data)) from rfl]
  rw [charsLe_append_left]
  rw [pad3_triple a (by omega)]
  simp only [List.cons_append]
  refine charsLe_head_lt (digitChar (a / 100)) 'f' _ _ ?_
  rw [digitChar_toNat (a / 100) (by omega)]
  have h102 : Char.toNat 'f' = 102 := rfl
  omega

theorem fbStep_cases (cfg : Config) (dir : String) (fps : ℚ) (video : ℕ → Option FrameData)
    (acc : List KeyframeRecord) (i : ℕ) :
    fbStep cfg dir fps video acc i = acc ∨
    ∃ t sh ed ta, fbStep cfg dir fps video acc i =
      acc ++ [⟨fbName dir (acc.length + 1), t, sh, ed, ta⟩] := by
  unfold fbStep
  cases video i with
  | none => exact Or.inl rfl
  | some d =>
    simp only
    split
    · exact Or.inl rfl
    · exact Or.inr ⟨_, _, _, _, rfl⟩

theorem fbFiles_invariant (cfg : Config) (dir : String) (fps : ℚ)
    (video : ℕ → Option FrameData) (ps : List ℕ) (acc : List KeyframeRecord)
    (hacc : acc.map (fun r => r.file) =
      (List.range acc.length).map (fun k => fbName dir (k + 1))) :
    (List.foldl (fbStep cfg dir fps video) acc ps).map (fun r => r.file) =
      (List.range (List.foldl (fbStep cfg dir fps video) acc ps).length).map
        (fun k => fbName dir (k + 1)) := by
  refine List.foldlRecOn (motive := fun l : List KeyframeRecord =>
      l.map (fun r => r.file) = (List.range l.length).map (fun k => fbName dir (k + 1)))
    ps (fbStep cfg dir fps video) acc hacc ?_
  intro b hb i hi
  rcases fbStep_cases cfg dir fps video b i with h | ⟨t, sh, ed, ta, h⟩
  · rw [h]; exact hb
  · rw [h]
    simp only [List.map_append, List.length_append, List.map_cons, List.map_nil,
      List.length_cons, List.length_nil]
    rw [hb]
    rw [show b.length + (0 + 1) = b.length + 1 by omega]
    rw [List.range_succ]
    simp

theorem fallback_capture_files (cfg : Config) (dir : String) (total_frames : ℕ) (fps : ℚ)
    (video : ℕ → Option FrameData) :
    (fallback_capture cfg dir total_frames fps video).map (fun r => r.file) =
      (List.range (fallback_capture cfg dir total_frames fps video).length).map
        (fun k => fbName dir (k + 1)) :=
  fbFiles_invariant cfg dir fps video _ [] (by simp)

theorem fallback_capture_length_le (cfg : Config) (dir : String) (total_frames : ℕ) (fps : ℚ)
    (video : ℕ → Option FrameData) :
    (fallback_capture cfg dir total_frames fps video).length ≤ 20 := by
  have hfold : ∀ (ps : List ℕ) (acc : List KeyframeRecord),
      (List.foldl (fbStep cfg dir fps video) acc ps).length ≤ acc.length + ps.length := by
    intro ps
    induction ps with
    | nil => intro acc; simp
    | cons p rest ih =>
      intro acc
      simp only [List.foldl_cons, List.length_cons]
      have h1 := ih (fbStep cfg dir fps video acc p)
      have h2 : (fbStep cfg dir fps video acc p).length ≤ acc.length + 1 := by
        rcases fbStep_cases cfg dir fps video acc p with h | ⟨t, sh, ed, ta, h⟩
        · rw [h]; omega
        · rw [h]; simp
      omega
  have hpos : (fallbackPositions total_frames).length ≤ 20 := by
    unfold fallbackPositions
    rw [List.length_map, List.length_range]
    unfold fbCount
    omega
  have h := hfold (fallbackPositions total_frames) []
  unfold fallback_capture
  simp only [List.length_nil] at h
  omega

theorem mergeFallback_files_decomp (fallback : List KeyframeRecord) :
    ∀ content : List KeyframeRecord, ∃ l,
      (mergeFallback content fallback).map (fun r => r.file) =
        content.map (fun r => r.file) ++ l ∧
      l.Sublist (fallback.map (fun r => r.file)) := by
  induction fallback with
  | nil =>
    intro c
    exact ⟨[], by simp [mergeFallback], List.Sublist.refl _⟩
  | cons f fs ih =>
    intro c
    show ∃ l, (List.foldl _
      (if f.file ∈ c.map (fun r => r.file) then c else c ++ [f]) fs).map (fun r => r.file) =
        _ ∧ _
    split
    · obtain ⟨l, h1, h2⟩ := ih c
      unfold mergeFallback at h1
      exact ⟨l, h1, h2.cons f.file⟩
    · obtain ⟨l, h1, h2⟩ := ih (c ++ [f])
      unfold mergeFallback at h1
      refine ⟨f.file :: l, ?_, h2.cons₂ f.file⟩
      rw [h1]
      simp

theorem strLe_trans3 (a b c : String) (h1 : strLe a b = true) (h2 : strLe b c = true) :
    strLe a c = true :=
  charsLe_trans a.data b.data c.data h1 h2

theorem strLe_total2 (a b : String) : (strLe a b || strLe b a) = true := by
  rcases charsLe_total a.data b.data with h | h
  · unfold strLe
    rw [h]
    rfl
  · unfold strLe
    rw [h]
    simp

theorem extract_files_pairwise (cfg : Config) (corrF : ℕ → ℕ → ℚ)
    (video : ℕ → Option FrameData) (total_frames : ℕ) (fps : ℚ) (name : String)
    (hn : (contentState cfg corrF (name ++ "_slides") fps video total_frames).captured.length
      ≤ 999) :
    ((extract_best_frames cfg corrF video total_frames fps name).map
      (fun r => r.file)).Pairwise (fun a b => strLe a b = true) := by
  have hfull : ((contentState cfg corrF (name ++ "_slides") fps video
        total_frames).captured.map (fun r => r.file) ++
      (fallback_capture cfg (name ++ "_slides") total_frames fps video).map
        (fun r => r.file)).Pairwise (fun a b => strLe a b = true) := by
    rw [contentState_files, fallback_capture_files]
    have hfb20 := fallback_capture_length_le cfg (name ++ "_slides") total_frames fps video
    rw [List.pairwise_append]
    refine ⟨?_, ?_, ?_⟩
    · rw [List.pairwise_iff_get]
      intro i j hij
      simp only [List.get_eq_getElem, List.getElem_map, List.getElem_range]
      have hj : (j : ℕ) <
          (contentState cfg corrF (name ++ "_slides") fps video total_frames).captured.length := by
        have := j.isLt
        simpa using this
      exact slide_mono _ _ _ (by omega) (by omega)
    · rw [List.pairwise_iff_get]
      intro i j hij
      simp only [List.get_eq_getElem, List.getElem_map, List.getElem_range]
      have hj : (j : ℕ) <
          (fallback_capture cfg (name ++ "_slides") total_frames fps video).length := by
        have := j.isLt
        simpa using this
      exact fb_mono _ _ _ (by omega) (by omega)
    · intro x hx y hy
      obtain ⟨k, hk, rfl⟩ : ∃ k, k <
          (contentState cfg corrF (name ++ "_slides") fps video total_frames).captured.length ∧
          slideName (name ++ "_slides") (k + 1) = x := by
        obtain ⟨k, hk1, hk2⟩ := List.mem_map.mp hx
        exact ⟨k, List.mem_range.mp hk1, hk2⟩
      obtain ⟨j, hj, rfl⟩ : ∃ j, j <
          (fallback_capture cfg (name ++ "_slides") total_frames fps video).length ∧
          fbName (name ++ "_slides") (j + 1) = y := by
        obtain ⟨j, hj1, hj2⟩ := List.mem_map.mp hy
        exact ⟨j, List.mem_range.mp hj1, hj2⟩
      exact slide_fb_mono _ _ _ (by omega)
  simp only [extract_best_frames]
  split
  · obtain ⟨l, hdecomp, hsub⟩ := mergeFallback_files_decomp
      (fallback_capture cfg (name ++ "_slides") total_frames fps video)
      (contentState cfg corrF (name ++ "_slides") fps video total_frames).captured
    rw [hdecomp]
    exact hfull.sublist (hsub.append_left _)
  · exact hfull.sublist (List.sublist_append_left _ _)

/-- C7 (amended): provided the content-aware pass produced at most 999
records (the fallback pass produces at most 20), sorting the storage
references lexicographically — as `create_pdf` does — returns them already in
selection order: content-aware records in acceptance order followed by the
merged fallback records in sampling order. -/
theorem C7_sorted_is_selection_order_amended (cfg : Config) (corrF : ℕ → ℕ → ℚ)
    (video : ℕ → Option FrameData) (total_frames : ℕ) (fps : ℚ) (name : String)
    (hn : (contentState cfg corrF (name ++ "_slides") fps video total_frames).captured.length
      ≤ 999) :
    create_pdf_files (extract_best_frames cfg corrF video total_frames fps name) =
      (extract_best_frames cfg corrF video total_frames fps name).map (fun r => r.file) := by
  unfold create_pdf_files
  exact List.mergeSort_of_sorted
    (extract_files_pairwise cfg corrF video total_frames fps name hn)

theorem contentSharp_1000 :
    (contentState cfgW corr0 "v_slides" 1 vidSharp 1000).captured.length = 1000 := by
  unfold contentState
  rw [intervalW_one, foldSharp_len]
  decide

/-- Counterexample to C7 as stated: with 1000 content-aware records the names
run `slide_001` … `slide_999`, `slide_1000`, and `slide_1000.png` sorts
lexicographically before `slide_999.png`, so the sorted order is not the
selection order. -/
theorem C7_sorted_is_selection_order_counterexample :
    create_pdf_files (extract_best_frames cfgW corr0 vidSharp 1000 1 "v") ≠
      (extract_best_frames cfgW corr0 vidSharp 1000 1 "v").map (fun r => r.file) := by
  intro heq
  have hfiles : (extract_best_frames cfgW corr0 vidSharp 1000 1 "v").map (fun r => r.file) =
      (List.range 1000).map (fun k => slideName "v_slides" (k + 1)) := by
    simp only [extract_best_frames]
    rw [show ("v" ++ "_slides" : String) = "v_slides" from rfl]
    rw [if_neg (by rw [contentSharp_1000]; norm_num)]
    have h := contentState_files cfgW corr0 "v_slides" 1 vidSharp 1000
    rw [contentSharp_1000] at h
    exact h
  have hsorted := List.sorted_mergeSort (fun a b c => strLe_trans3 a b c)
    (fun a b => strLe_total2 a b)
    ((extract_best_frames cfgW corr0 vidSharp 1000 1 "v").map (fun r => r.file))
  unfold create_pdf_files at heq
  rw [heq, hfiles] at hsorted
  rw [List.pairwise_iff_get] at hsorted
  have hlen : ((List.range 1000).map (fun k => slideName "v_slides" (k + 1))).length = 1000 := by
    rw [List.length_map, List.length_range]
  have h999 := hsorted ⟨998, by omega⟩ ⟨999, by omega⟩ (by
    show (998 : ℕ) < 999
    omega)
  simp only [List.get_eq_getElem, List.getElem_map, List.getElem_range] at h999
  have hfalse : strLe (slideName "v_slides" (998 + 1)) (slideName "v_slides" (999 + 1)) =
      false := by decide
  rw [hfalse] at h999
  exact Bool.false_ne_true h999

theorem contentW_5 :
    (contentState cfgW corr0 ("v" ++ "_slides") 1 vidSharp 5).captured.length ≤ 999 := by
  unfold contentState
  rw [intervalW_one, foldSharp_len]
  decide

/-- Witness for the amended C7: a 5-record extraction sorts to itself. -/
theorem C7_sorted_is_selection_order_witness :
    create_pdf_files (extract_best_frames cfgW corr0 vidSharp 5 1 "v") =
      (extract_best_frames cfgW corr0 vidSharp 5 1 "v").map (fun r => r.file) :=
  C7_sorted_is_selection_order_amended cfgW corr0 vidSharp 5 1 "v" contentW_5
